import Mathlib

/-!
Shallow embedding of the `update-version` tool (Rust) and verification of its
specification.  The embedding follows the source files:

* `src/parsers/mod.rs`        — semver increment, generic parser trait
  (`update_version`, `get_current_version`, `get_matching_files`);
* `src/parsers/toml_parser.rs`, `src/parsers/package_json_parser.rs`,
  `src/parsers/tauri_config_parser.rs` — the three format strategies;
* `src/git.rs`                — release state machine and credential callbacks;
* `src/main.rs`               — CLI-level auto-increment (`get_next_version`).

Rust `u64` arithmetic is modelled on `Nat` with an explicit `% 2 ^ 64`
wherever the source performs `u64` addition (release-profile wrapping
semantics).  Strings are modelled through their character lists.
-/

namespace UpdateVersion

/-- `2 ^ 64`, the modulus of Rust `u64` arithmetic. -/
def U64 : Nat := 2 ^ 64

/-- Model of `semver::Version`: `major`/`minor`/`patch` are `u64` fields
(values `< U64` for every version the `semver` crate can produce), `pre` is
the prerelease string (`""` when absent) and `build` the build-metadata
string (`""` when absent). -/
structure Version where
  major : Nat
  minor : Nat
  patch : Nat
  pre : String
  build : String
deriving DecidableEq, Repr

/-- The decimal digit character for `d < 10` (Rust `u64` `Display` digit). -/
def digitChar (d : Nat) : Char := Char.ofNat (48 + d)

/-- Fuel-driven decimal rendering of a `Nat`, most significant digit first.
`natDigitsAux` models the digit loop of Rust's integer `Display`. -/
def natDigitsAux : Nat → Nat → List Char
  | 0, _ => []
  | fuel + 1, n =>
    if n < 10 then [digitChar n]
    else natDigitsAux fuel (n / 10) ++ [digitChar (n % 10)]

/-- Decimal digits of `n`, most significant first (fuel `n + 1` always
suffices since the number of digits of `n` is at most `n + 1`). -/
def natDigits (n : Nat) : List Char := natDigitsAux (n + 1) n

/-- Decimal rendering of a `Nat` as a string (Rust `format!` of a `u64`). -/
def natRepr (n : Nat) : String := String.mk (natDigits n)

/-- Numeric value of a list of decimal digit characters. -/
def digitsToNat (cs : List Char) : Nat :=
  cs.foldl (fun a c => a * 10 + (c.toNat - 48)) 0

/-- Model of Rust `str::parse::<u64>`: an optional leading `+`, then one or
more ASCII digits, rejecting the empty string and values that overflow
`u64`. -/
def parseU64 (cs : List Char) : Option Nat :=
  let ds := match cs with
    | '+' :: rest => rest
    | _ => cs
  if ds.isEmpty then none
  else if ds.all Char.isDigit then
    if digitsToNat ds < U64 then some (digitsToNat ds) else none
  else none

/-- Worker for `splitDots`; `acc` holds the current chunk reversed.  Models
Rust `str::split('.')`, which yields the (possibly empty) maximal
dot-free chunks. -/
def splitDotsAux : List Char → List Char → List (List Char)
  | [], acc => [acc.reverse]
  | c :: cs, acc =>
    if c = '.' then acc.reverse :: splitDotsAux cs []
    else splitDotsAux cs (c :: acc)

/-- Model of Rust `str::split('.').collect::<Vec<_>>()`. -/
def splitDots (cs : List Char) : List (List Char) := splitDotsAux cs []

/-- Model of Rust `Vec::join(".")` on string chunks. -/
def joinDots (ps : List (List Char)) : List Char := List.intercalate ['.'] ps

/-- Validity of one prerelease identifier per the `semver` crate: nonempty,
ASCII alphanumeric or hyphen characters only, and an all-digit identifier
longer than one character must not start with `0`. -/
def validIdent (cs : List Char) : Bool :=
  !cs.isEmpty && cs.all (fun c => c.isAlphanum || c = '-') &&
    (!(cs.all Char.isDigit) || cs.length = 1 || !(cs.head? = some '0'))

/-- Validity of a whole (nonempty) prerelease string per the `semver`
crate: every dot-separated identifier is valid. -/
def validPre (s : String) : Bool := (splitDots s.data).all validIdent

/-- Model of `semver::Prerelease::new`: the empty string is the empty
prerelease; otherwise the string must pass identifier validation. -/
def prereleaseNew (s : String) : Option String :=
  if s = ("") then some s
  else if validPre s then some s else none

/-- Embedding of `increment_semver` (`src/parsers/mod.rs` lines 31-62).
Clears `build`; with no prerelease bumps `patch`; with a prerelease whose
last dot-separated identifier parses as `u64` it replaces that identifier
by its successor (`u64` addition, hence the `% U64`), otherwise it bumps
`patch` and keeps the prerelease.  The `Option` result models the
`Result` return (`Prerelease::new` is fallible). -/
def increment_semver (v : Version) : Option Version :=
  if v.pre = ("") then
    some { v with patch := (v.patch + 1) % U64, build := ("") }
  else
    let parts := splitDots v.pre.data
    match parts.getLast? with
    | some last =>
      match parseU64 last with
      | some n =>
        let pfx := parts.dropLast
        let newPre :=
          if pfx.isEmpty then natDigits ((n + 1) % U64)
          else joinDots pfx ++ ['.'] ++ natDigits ((n + 1) % U64)
        match prereleaseNew (String.mk newPre) with
        | some p => some { v with pre := p, build := ("") }
        | none => none
      | none => some { v with patch := (v.patch + 1) % U64, build := ("") }
    | none => some { v with patch := (v.patch + 1) % U64, build := ("") }

/-- `semver::Version` `Display`: `major.minor.patch`, then `-pre` when a
prerelease is present, then `+build` when build metadata is present. -/
def versionToString (v : Version) : String :=
  natRepr v.major ++ (".") ++ natRepr v.minor ++ (".") ++ natRepr v.patch
    ++ (if v.pre = ("") then ("") else ("-") ++ v.pre)
    ++ (if v.build = ("") then ("") else ("+") ++ v.build)

/-- Embedding of the version-computation step of `get_next_version`
(`src/main.rs` lines 88-95): after the current version is read, a version
with no prerelease gets `patch + 1` (`u64` addition); a version with a
prerelease gets its prerelease cleared; `build` is always cleared. -/
def get_next_version_step (v : Version) : Version :=
  if v.pre = ("") then { v with patch := (v.patch + 1) % U64, build := ("") }
  else { v with pre := (""), build := ("") }

/-! ### Format strategies: version locator and replacement

The three parsers locate the version text with the regexes

* TOML:         `(?m)^(version\s*=\s*")(\d+\.\d+\.\d+[^"]*)"`
* package.json: `(?m)^(\s*"version"\s*:\s*")([^"]*)"` (also reused by the
  tauri.conf.json parser)

Both regexes are deterministic: every `\s*`, `\d+` and `[^"]*` is followed
by a character outside its class, so greedy matching never backtracks.  The
matchers below implement exactly that deterministic scan, trying each
line-start position from left to right as the multiline `^` anchor does. -/

/-- Rust regex `\s` (whitespace class), ASCII part. -/
def isWS (c : Char) : Bool :=
  c = ' ' || c = '\t' || c = '\n' || c = '\r' || c = '\x0b' || c = '\x0c'

/-- Strip an expected literal from the front of the input; `none` when the
input does not start with it. -/
def stripPrefixL : List Char → List Char → Option (List Char)
  | [], cs => some cs
  | _ :: _, [] => none
  | p :: ps, c :: cs => if p = c then stripPrefixL ps cs else none

/-- One-or-more decimal digits (`\d+`), greedy. -/
def digits1 (cs : List Char) : Option (List Char × List Char) :=
  if (cs.takeWhile Char.isDigit).isEmpty then none
  else some (cs.takeWhile Char.isDigit, cs.dropWhile Char.isDigit)

/-- The part of the TOML regex after the opening quote:
`(\d+\.\d+\.\d+[^"]*)"`.  Returns the captured version text (group 2) and
the input after the closing quote. -/
def tryVersionTailToml (cs : List Char) : Option (List Char × List Char) :=
  match digits1 cs with
  | none => none
  | some (d1, r1) =>
    match r1 with
    | '.' :: r2 =>
      match digits1 r2 with
      | none => none
      | some (d2, r3) =>
        match r3 with
        | '.' :: r4 =>
          match digits1 r4 with
          | none => none
          | some (d3, r5) =>
            let t := r5.takeWhile (fun c => !(c = '\"'))
            match r5.dropWhile (fun c => !(c = '\"')) with
            | '\"' :: r6 => some (d1 ++ '.' :: d2 ++ '.' :: d3 ++ t, r6)
            | _ => none
        | _ => none
    | _ => none

/-- Attempt the TOML version regex at a line-start position.  On success
returns `(group1, group2, rest)` where `group1` is
`version\s*=\s*"` as matched and `rest` is the input after the closing
quote of the match. -/
def tryTomlAt (cs : List Char) : Option (List Char × List Char × List Char) :=
  match stripPrefixL (("version").data) cs with
  | none => none
  | some r1 =>
    let w1 := r1.takeWhile isWS
    match r1.dropWhile isWS with
    | '=' :: r2 =>
      let w2 := r2.takeWhile isWS
      match r2.dropWhile isWS with
      | '\"' :: r3 =>
        match tryVersionTailToml r3 with
        | none => none
        | some (g2, rest) =>
          some ((("version").data) ++ w1 ++ '=' :: w2 ++ ['\"'], g2, rest)
      | _ => none
    | _ => none

/-- Attempt the package.json version regex at a line-start position.  On
success returns `(group1, group2, rest)` where `group1` is
`\s*"version"\s*:\s*"` as matched. -/
def tryPkgAt (cs : List Char) : Option (List Char × List Char × List Char) :=
  let w0 := cs.takeWhile isWS
  match stripPrefixL (("\"version\"").data) (cs.dropWhile isWS) with
  | none => none
  | some r1 =>
    let w1 := r1.takeWhile isWS
    match r1.dropWhile isWS with
    | ':' :: r2 =>
      let w2 := r2.takeWhile isWS
      match r2.dropWhile isWS with
      | '\"' :: r3 =>
        let g2 := r3.takeWhile (fun c => !(c = '\"'))
        match r3.dropWhile (fun c => !(c = '\"')) with
        | '\"' :: rest =>
          some (w0 ++ (("\"version\"").data) ++ w1 ++ ':' :: w2 ++ ['\"'], g2, rest)
        | _ => none
      | _ => none
    | _ => none

/-- Scan for the leftmost regex match.  `acc` is the reversed text already
passed over; `atStart` records whether the current position is a line start
(where the multiline `^` anchor allows a match attempt). -/
def findFrom (tryAt : List Char → Option (List Char × List Char × List Char)) :
    List Char → List Char → Bool →
    Option (List Char × List Char × List Char × List Char)
  | acc, cs, atStart =>
    match (if atStart then tryAt cs else none) with
    | some (g1, g2, rest) => some (acc.reverse, g1, g2, rest)
    | none =>
      match cs with
      | [] => none
      | c :: cs' => findFrom tryAt (c :: acc) cs' (c = '\n')

/-- Leftmost match of a version regex in `content`: returns
`(before, group1, group2, rest)` with the match spanning
`group1 ++ group2 ++ '"'`. -/
def findMatch (tryAt : List Char → Option (List Char × List Char × List Char))
    (content : List Char) :
    Option (List Char × List Char × List Char × List Char) :=
  findFrom tryAt [] content true

/-- The three format strategies (`TomlParser`, `PackageJsonParser`,
`TauriConfigParser`). -/
inductive Strategy
  | toml
  | packageJson
  | tauriConfig
deriving DecidableEq, Repr

/-- `version_match_regex` of each strategy: the tauri.conf.json parser
reuses the package.json regex (`tauri_config_parser.rs` line 10). -/
def strategyTryAt : Strategy → List Char → Option (List Char × List Char × List Char)
  | .toml => tryTomlAt
  | .packageJson => tryPkgAt
  | .tauriConfig => tryPkgAt

/-- `TauriConfigParser::version_line_format`
(`tauri_config_parser.rs` lines 17-22): the literal replacement
`"version": "major.minor.patch"`, using only the numeric triple. -/
def tauriVersionLineFormat (v : Version) : String :=
  ("\"version\": \"") ++ natRepr v.major ++ (".") ++ natRepr v.minor
    ++ (".") ++ natRepr v.patch ++ ("\"")

/-- The replacement text produced by `Regex::replace` for each strategy's
`version_line_format` template: the TOML and package.json templates are
`${1}<version>"` (re-emitting capture group 1 verbatim), the
tauri.conf.json template is the fixed literal with no group reference. -/
def version_line_render (s : Strategy) (v : Version) (g1 : List Char) : List Char :=
  match s with
  | .toml => g1 ++ (versionToString v).data ++ ['\"']
  | .packageJson => g1 ++ (versionToString v).data ++ ['\"']
  | .tauriConfig => (tauriVersionLineFormat v).data

/-- Content transformation of `Parser::update_version` on one file
(`parsers/mod.rs` lines 76-78): replace the first regex match by the
rendered replacement; content with no match is written back unchanged. -/
def updateContent (s : Strategy) (v : Version) (content : List Char) : List Char :=
  match findMatch (strategyTryAt s) content with
  | none => content
  | some (before, g1, _, rest) => before ++ version_line_render s v g1 ++ rest

/-! ### File discovery ordering (`Parser::get_matching_files`) -/

/-- A filesystem path, as its list of components (Rust
`Path::components`). -/
abbrev FsPath := List String

/-- Lexicographic comparison of component lists, the model of
`PathBuf::cmp` used as the secondary sort key. -/
def lexLe : FsPath → FsPath → Bool
  | [], _ => true
  | _ :: _, [] => false
  | a :: xs, b :: ys => if a < b then true else if b < a then false else lexLe xs ys

/-- The comparator of `get_matching_files` (`parsers/mod.rs` lines
139-142): component count ascending, then full path lexicographically. -/
def pathLe (p q : FsPath) : Bool :=
  decide (p.length < q.length) || (decide (p.length = q.length) && lexLe p q)

/-- `pathLe` as a proposition, for use with `List.insertionSort`. -/
def PathLe (p q : FsPath) : Prop := pathLe p q = true

instance : DecidableRel PathLe := fun p q =>
  inferInstanceAs (Decidable (pathLe p q = true))

/-- Embedding of `Parser::get_matching_files` over the entries yielded by
the directory walk: keep the entries whose path matches the filename
regex (the predicate argument), then sort by depth then lexicographic path.  The walk and the
ignore handling are external (`ignore` crate); `entries` stands for the
walker's yield in whatever order the filesystem enumerates. -/
def get_matching_files (pred : FsPath → Bool) (entries : List FsPath) : List FsPath :=
  List.insertionSort PathLe (entries.filter pred)

/-! ### `Parser::get_current_version` -/

/-- Validity of a build-metadata string per the `semver` crate: nonempty
dot-separated identifiers of ASCII alphanumerics and hyphens (leading
zeros are allowed in build identifiers). -/
def validBuildIdent (cs : List Char) : Bool :=
  !cs.isEmpty && cs.all (fun c => c.isAlphanum || c = '-')

/-- Parse one dot-separated `u64` numeric field of a version core
(`major`, `minor` or `patch`): digits only, no leading zeros, below
`2 ^ 64`. -/
def parseNumField (cs : List Char) : Option Nat :=
  if cs.isEmpty then none
  else if cs.all Char.isDigit then
    if cs.length ≠ 1 && cs.head? = some '0' then none
    else if digitsToNat cs < U64 then some (digitsToNat cs) else none
  else none

/-- Model of `semver::Version::parse`:
`major.minor.patch`, optionally `-pre` (up to `+`), optionally `+build`. -/
def parseVersion (s : String) : Option Version :=
  let (core, buildPart) :=
    match s.data.splitOn '+' with
    | c :: rest => (c, rest)
    | [] => ([], [])
  let build := List.intercalate ['+'] buildPart
  let (nums, prePart) :=
    match core.splitOn '-' with
    | c :: rest => (c, rest)
    | [] => ([], [])
  let pre := List.intercalate ['-'] prePart
  match splitDots nums with
  | [ma, mi, pa] =>
    match parseNumField ma, parseNumField mi, parseNumField pa with
    | some major, some minor, some patch =>
      if (core.splitOn '-').length ≠ 1 && !(validPre (String.mk pre)) then none
      else if (s.data.splitOn '+').length ≠ 1
          && !((splitDots build).all validBuildIdent) then none
      else some ⟨major, minor, patch, String.mk pre, String.mk build⟩
    | _, _, _ => none
  | _ => none

/-- Errors of `get_current_version`: the repository's
`ParsingError::NoVersionFoundError` (carrying the searched directory) and
the propagated `semver` parse failure. -/
inductive ParsingError
  | NoVersionFoundError (dir : String)
  | MalformedVersion (s : String)
deriving DecidableEq, Repr

/-- Embedding of `Parser::get_current_version` (`parsers/mod.rs` lines
93-110) over the discovered files with their contents, in discovery
order.  `locate` is the strategy's capture of group 2 of
`version_match_regex`; the first file with a match determines the result,
and if no file matches the error carries the searched root. -/
def get_current_version (locate : String → Option String) (root : String) :
    List (FsPath × String) → Except ParsingError Version
  | [] => .error (.NoVersionFoundError root)
  | (_, content) :: rest =>
    match locate content with
    | some s =>
      match parseVersion s with
      | some v => .ok v
      | none => .error (.MalformedVersion s)
    | none => get_current_version locate root rest

/-- The `locate` function induced by a strategy: capture group 2 of the
leftmost match of its `version_match_regex`. -/
def strategyLocate (s : Strategy) (content : String) : Option String :=
  match findMatch (strategyTryAt s) content.data with
  | some (_, _, g2, _) => some (String.mk g2)
  | none => none

/-- Substring membership at the front. -/
def beginsWith : List Char → List Char → Bool
  | [], _ => true
  | _ :: _, [] => false
  | p :: ps, c :: cs => p = c && beginsWith ps cs

/-- Substring membership anywhere (model of Rust `str::contains`). -/
def hasSubstr (pat : List Char) : List Char → Bool
  | [] => pat.isEmpty
  | c :: cs => beginsWith pat (c :: cs) || hasSubstr pat cs

/-! ### Git release state machine (`src/git.rs`)

The libgit2 repository is modelled by the state its operations observe and
mutate: the HEAD commit history, the tag list, the staged index and the
working-tree status.  `pendingChanges` abstracts whether
`repository.statuses(None)` reports anything after the staging step; a
commit captures the staged changes, after which the status the machine
would observe is clean (the modified files are the only pending
changes). -/

/-- `GitMode` (`src/arguments.rs` lines 12-20). -/
inductive GitMode
  | none
  | commit
  | commitPush
  | commitPushTag
  | commitTag
deriving DecidableEq, Repr

/-- Errors surfaced by the git layer: no configured identity
(`get_signature`), a tag name that already exists (libgit2 `tag` with
`force = false`), a missing tag target, a missing remote, and an
unresolvable HEAD (`current_branch`). -/
inductive GitError
  | noIdentity
  | duplicateTag (name : String)
  | commitNotFound
  | remoteNotFound (name : String)
  | noHead
deriving DecidableEq, Repr

/-- Observable repository state for the release machine.  Commit ids are
abstract naturals drawn from `nextOid`. -/
structure GitState where
  /-- HEAD history, most recent commit first; `[]` models an unborn HEAD. -/
  headHistory : List Nat
  /-- Fresh commit-id supply. -/
  nextOid : Nat
  /-- Existing tags: name, target commit and tag message. -/
  tags : List (String × Nat × String)
  /-- The staged index, as the paths added to it. -/
  index : List FsPath
  /-- Whether `statuses(None)` after the staging step is non-empty. -/
  pendingChanges : Bool
  /-- Whether `user.name`/`user.email` are configured (`get_signature`). -/
  hasIdentity : Bool
  /-- Name of the current branch. -/
  branch : String
  /-- Remotes configured in the repository. -/
  remotes : List String
  /-- Refspecs pushed so far (observable network effect). -/
  pushedRefs : List String
  /-- Paths matched by repository ignore rules
  (`repository.is_path_ignored`). -/
  ignored : FsPath → Bool

/-- Embedding of `GitTracker::stage_files` (`git.rs` lines 125-174) on the
observable state: adds the given paths to the index, skipping gitignored
ones.  Path canonicalisation and the best-effort `cargo update` /
`Cargo.lock` side effect touch only the filesystem and the index, not the
commit/tag/push observables. -/
def stage_files (s : GitState) (files : List FsPath) : GitState :=
  { s with index := s.index ++ files.filter (fun f => !(s.ignored f)) }

/-- Embedding of `GitTracker::create_commit` (`git.rs` lines 177-207):
requires a configured identity, creates a commit on HEAD with a fresh id
and returns it.  The committed state's working tree is clean with respect
to what was staged. -/
def create_commit (s : GitState) (_message : String) : Except GitError (GitState × Nat) :=
  if s.hasIdentity then
    .ok ({ s with headHistory := s.nextOid :: s.headHistory,
                  nextOid := s.nextOid + 1,
                  pendingChanges := false }, s.nextOid)
  else .error GitError.noIdentity

/-- Embedding of `GitTracker::create_tag` (`git.rs` lines 210-227):
requires an identity and an existing target commit, creates an annotated
tag with message `Release <tagName>`; with `force = false` libgit2 fails
when a tag of that name already exists. -/
def create_tag (s : GitState) (tagName : String) (commitId : Nat) :
    Except GitError GitState :=
  if !s.hasIdentity then .error GitError.noIdentity
  else if !(s.headHistory.contains commitId) then .error GitError.commitNotFound
  else if s.tags.any (fun t => t.1 = tagName) then .error (GitError.duplicateTag tagName)
  else .ok { s with tags := s.tags ++ [(tagName, commitId, ("Release ") ++ tagName)] }

/-- Embedding of `GitTracker::current_branch` (`git.rs` lines 266-271). -/
def current_branch (s : GitState) : Except GitError String :=
  if s.headHistory.isEmpty then .error GitError.noHead else .ok s.branch

/-- Embedding of a push of one refspec (`push_commits` / `push_tag`,
`git.rs` lines 230-263): requires the named remote; the network transfer
itself is external and recorded as the pushed refspec. -/
def push_ref (s : GitState) (remote : String) (refspec : String) :
    Except GitError GitState :=
  if s.remotes.contains remote then
    .ok { s with pushedRefs := s.pushedRefs ++ [refspec] }
  else .error (GitError.remoteNotFound remote)

/-- Which modes tag (`git.rs` line 297). -/
def shouldTag : GitMode → Bool
  | .commitPushTag => true
  | .commitTag => true
  | _ => false

/-- Which modes push (`git.rs` line 303). -/
def shouldPush : GitMode → Bool
  | .commitPush => true
  | .commitPushTag => true
  | _ => false

/-- Embedding of `GitTracker::execute_git_mode` (`git.rs` lines 274-314):
`None` is an immediate no-op; otherwise stage the modified files, return
successfully when the working-tree status is empty, else commit, tag when
the mode tags (name `v<version>`), and push branch and tag when the mode
pushes (remote `origin`). -/
def execute_git_mode (s : GitState) (mode : GitMode) (version : String)
    (files : List FsPath) : Except GitError GitState :=
  if mode = GitMode.none then .ok s
  else
    if !(stage_files s files).pendingChanges then .ok (stage_files s files)
    else
      match create_commit (stage_files s files) (("chore: bump version to ") ++ version) with
      | .error e => .error e
      | .ok (s2, cid) =>
        match (if shouldTag mode then create_tag s2 (("v") ++ version) cid else .ok s2) with
        | .error e => .error e
        | .ok s3 =>
          if shouldPush mode then
            match current_branch s3 with
            | .error e => .error e
            | .ok br =>
              match push_ref s3 ("origin")
                  (("refs/heads/") ++ br ++ (":refs/heads/") ++ br) with
              | .error e => .error e
              | .ok s4 =>
                if shouldTag mode then
                  push_ref s4 ("origin")
                    (("refs/tags/") ++ (("v") ++ version) ++ (":refs/tags/") ++ (("v") ++ version))
                else .ok s4
          else .ok s3

/-! ### Credential negotiator (`GitTracker::create_auth_callbacks`) -/

/-- An opaque credential value produced by one of the strategies. -/
structure Cred where
  id : Nat
deriving DecidableEq, Repr

/-- The authentication strategies of the credentials callback, in the
order the source tries them. -/
inductive CredStrategy
  | sshAgent
  | keyFile (name : String)
  | credHelper
  | defaultCred
deriving DecidableEq, Repr

/-- The environment one credentials-callback invocation observes: the
`allowed_types` bits, the URL-derived username, the SSH agent, the
`~/.ssh` directory, the git credential helper and the default-credential
mechanism. -/
structure CredEnv where
  /-- `allowed_types.contains(CredentialType::SSH_KEY)`. -/
  sshAllowed : Bool
  /-- `allowed_types.contains(CredentialType::USER_PASS_PLAINTEXT)`. -/
  userPassAllowed : Bool
  /-- `allowed_types.contains(CredentialType::DEFAULT)`. -/
  defaultAllowed : Bool
  /-- `username_from_url`. -/
  usernameFromUrl : Option String
  /-- Whether `dirs::home_dir()` is available. -/
  homeAvailable : Bool
  /-- `Cred::ssh_key_from_agent` outcome for a username (`none` = `Err`). -/
  agentCred : String → Option Cred
  /-- Whether `~/.ssh/<name>` exists. -/
  keyFileExists : String → Bool
  /-- `Cred::ssh_key` outcome for a key name (`none` = `Err`). -/
  keyCred : String → Option Cred
  /-- Whether `git2::Config::open_default()` succeeds. -/
  configOk : Bool
  /-- `Cred::credential_helper` outcome (`none` = `Err`). -/
  helperCred : Option Cred
  /-- `Cred::default()` outcome (`none` = `Err`). -/
  defaultCredResult : Option Cred

/-- The fixed conventional private-key file names tried under `~/.ssh`
(`git.rs` line 60), in priority order. -/
def keyNames : List String := [("id_ed25519"), ("id_rsa"), ("id_ecdsa")]

/-- The fixed priority order of credential strategies stated by the
negotiation: SSH agent, conventional key files, credential helper, default
credentials. -/
def credStrategyOrder : List CredStrategy :=
  [CredStrategy.sshAgent] ++ keyNames.map CredStrategy.keyFile
    ++ [CredStrategy.credHelper, CredStrategy.defaultCred]

/-- The `~/.ssh` key-file loop (`git.rs` lines 60-75): for each
conventional name whose private key exists, try `Cred::ssh_key`; a failed
attempt falls through to the next name.  Returns the strategies actually
attempted and the credential produced, if any. -/
def tryKeyList (env : CredEnv) : List String → List CredStrategy × Option Cred
  | [] => ([], none)
  | k :: ks =>
    if env.keyFileExists k then
      match env.keyCred k with
      | some c => ([CredStrategy.keyFile k], some c)
      | none =>
        (CredStrategy.keyFile k :: (tryKeyList env ks).1, (tryKeyList env ks).2)
    else tryKeyList env ks

/-- The default-credential section of the callback (`git.rs` lines 91-97):
when `DEFAULT` is allowed, `Cred::default()`'s outcome is returned
directly; otherwise the chain ends with "no suitable credentials found".
`tr` is the trace of strategies attempted so far. -/
def credAfterHelper (env : CredEnv) (tr : List CredStrategy) :
    List CredStrategy × Except String Cred :=
  if env.defaultAllowed then
    match env.defaultCredResult with
    | some c => (tr ++ [CredStrategy.defaultCred], .ok c)
    | none => (tr ++ [CredStrategy.defaultCred], .error ("default cred failed"))
  else (tr, .error ("no suitable credentials found"))

/-- The credential-helper section of the callback (`git.rs` lines 79-89):
when plaintext user/password is allowed, a failure to open the default git
config aborts with an error (the `?`); a successful helper lookup returns
its credential; a failed lookup falls through to the default section. -/
def credAfterSsh (env : CredEnv) (tr : List CredStrategy) :
    List CredStrategy × Except String Cred :=
  if env.userPassAllowed then
    if !env.configOk then (tr ++ [CredStrategy.credHelper], .error ("config open failed"))
    else
      match env.helperCred with
      | some c => (tr ++ [CredStrategy.credHelper], .ok c)
      | none => credAfterHelper env (tr ++ [CredStrategy.credHelper])
  else credAfterHelper env tr

/-- Outcome of the strategy chain of one callback invocation that passed
the attempt cap (`git.rs` lines 45-97), with the trace of strategies
attempted in order: SSH agent then the `~/.ssh` key files (when SSH keys
are allowed and a home directory exists), then the credential helper,
then the default credential. -/
def credAttemptBody (env : CredEnv) : List CredStrategy × Except String Cred :=
  if env.sshAllowed then
    match env.agentCred (env.usernameFromUrl.getD ("git")) with
    | some c => ([CredStrategy.sshAgent], .ok c)
    | none =>
      if env.homeAvailable then
        match (tryKeyList env keyNames).2 with
        | some c => (CredStrategy.sshAgent :: (tryKeyList env keyNames).1, .ok c)
        | none => credAfterSsh env (CredStrategy.sshAgent :: (tryKeyList env keyNames).1)
      else credAfterSsh env [CredStrategy.sshAgent]
  else credAfterSsh env []

/-- One invocation of the credentials callback (`git.rs` lines 31-98).
`prevAttempts` is the shared mutable attempt counter before the call; the
callback increments it, fails once the incremented count exceeds 5, and
otherwise runs the strategy chain.  Returns the new counter, the attempt
trace and the outcome. -/
def credCallback (env : CredEnv) (prevAttempts : Nat) :
    Nat × List CredStrategy × Except String Cred :=
  let attempt := prevAttempts + 1
  if attempt > 5 then
    (attempt, [], .error ("authentication failed after multiple attempts"))
  else
    (attempt, (credAttemptBody env).1, (credAttemptBody env).2)

/-! ### Concrete inputs used by witnesses and counterexamples -/

/-- `u64::MAX`, a valid all-digit prerelease identifier. -/
def u64MaxStr : String := ("18446744073709551615")

/-- A well-formed version whose prerelease is the numeric identifier
`u64::MAX`. -/
def vBigPre : Version := ⟨1, 0, 0, u64MaxStr, ("")⟩

/-- A well-formed version with `patch = u64::MAX` and a non-numeric
prerelease. -/
def vMaxPatch : Version := ⟨1, 0, U64 - 1, ("alpha"), ("")⟩

/-- Target version `2.0.0`. -/
def vTwo : Version := ⟨2, 0, 0, (""), ("")⟩

/-- Target version `2.0.0-beta.1`. -/
def vTwoBeta : Version := ⟨2, 0, 0, ("beta.1"), ("")⟩

/-- An indented `tauri.conf.json` content. -/
def tauriDemoContent : List Char :=
  ("\x7b\n  \"version\": \"1.0.0\"\n\x7d").data

/-- The manifest-toml content of the round-trip scenario. -/
def tomlDemoContent : List Char := ("version = \"1.0.0\"").data

/-! ### Lemmas: decimal rendering -/

theorem digitChar_isDigit {d : Nat} (h : d < 10) : (digitChar d).isDigit = true := by
  interval_cases d <;> decide

theorem digitChar_ne_zero {d : Nat} (h : d < 10) (h1 : 1 ≤ d) : digitChar d ≠ '0' := by
  interval_cases d <;> decide

theorem isDigit_isAlphanum {c : Char} (h : c.isDigit = true) : c.isAlphanum = true := by
  simp [Char.isAlphanum, h]

theorem isDigit_ne_dot {c : Char} (h : c.isDigit = true) : c ≠ '.' := by
  rintro rfl; simp [Char.isDigit] at h

theorem natDigitsAux_ne_nil (fuel n : Nat) : natDigitsAux (fuel + 1) n ≠ [] := by
  rw [natDigitsAux]
  split
  · simp
  · simp

theorem natDigits_ne_nil (n : Nat) : natDigits n ≠ [] := natDigitsAux_ne_nil n n

theorem natDigitsAux_all_digits (fuel : Nat) :
    ∀ n c, c ∈ natDigitsAux fuel n → c.isDigit = true := by
  induction fuel with
  | zero => intro n c hc; simp [natDigitsAux] at hc
  | succ fuel ih =>
    intro n c hc
    rw [natDigitsAux] at hc
    split at hc
    · next h =>
      simp at hc
      exact hc ▸ digitChar_isDigit h
    · next h =>
      rcases List.mem_append.mp hc with h1 | h1
      · exact ih _ _ h1
      · simp at h1
        exact h1 ▸ digitChar_isDigit (Nat.mod_lt _ (by omega))

theorem natDigits_all_digits {n : Nat} : ∀ c ∈ natDigits n, c.isDigit = true :=
  fun c hc => natDigitsAux_all_digits (n + 1) n c hc

theorem natDigitsAux_head_ne_zero (fuel : Nat) :
    ∀ n, 1 ≤ n → n < 10 ^ fuel → (natDigitsAux fuel n).head? ≠ some '0' := by
  induction fuel with
  | zero => intro n h1 h2; omega
  | succ fuel ih =>
    intro n h1 h2
    rw [natDigitsAux]
    split
    · next h =>
      simpa using digitChar_ne_zero h h1
    · next h =>
      push_neg at h
      have hfuel : 1 ≤ fuel := by
        by_contra hf
        have hf0 : fuel = 0 := by omega
        subst hf0
        omega
      have hne : natDigitsAux fuel (n / 10) ≠ [] := by
        obtain ⟨fuel', rfl⟩ : ∃ f, fuel = f + 1 := ⟨fuel - 1, by omega⟩
        exact natDigitsAux_ne_nil fuel' (n / 10)
      rw [List.head?_append_of_ne_nil _ hne]
      refine ih (n / 10) (by omega) ?_
      rw [Nat.div_lt_iff_lt_mul (by omega)]
      rw [pow_succ] at h2
      omega

theorem natDigits_head_ne_zero {n : Nat} (h : 1 ≤ n) :
    (natDigits n).head? ≠ some '0' := by
  refine natDigitsAux_head_ne_zero (n + 1) n h ?_
  calc n < 10 ^ n := Nat.lt_pow_self (by omega) n
  _ ≤ 10 ^ (n + 1) := Nat.pow_le_pow_right (by omega) (by omega)

/-- `natDigits (n + 1)` is a valid semver prerelease identifier. -/
theorem validIdent_natDigits (n : Nat) : validIdent (natDigits (n + 1)) = true := by
  have hd := natDigits_all_digits (n := n + 1)
  have hne := natDigits_ne_nil (n + 1)
  have hh := natDigits_head_ne_zero (n := n + 1) (by omega)
  simp only [validIdent, Bool.and_eq_true, Bool.or_eq_true]
  refine ⟨⟨by simpa using hne, ?_⟩, ?_⟩
  · rw [List.all_eq_true]
    intro c hc
    simp [isDigit_isAlphanum (hd c hc)]
  · simp [hh]

theorem natDigits_no_dot {n : Nat} : '.' ∉ natDigits n := by
  intro h
  exact isDigit_ne_dot (natDigits_all_digits _ h) rfl

/-! ### Lemmas: dot-splitting -/

theorem splitDotsAux_ne_nil : ∀ cs acc, splitDotsAux cs acc ≠ [] := by
  intro cs
  induction cs with
  | nil => intro acc; simp [splitDotsAux]
  | cons c cs ih =>
    intro acc
    rw [splitDotsAux]
    split
    · simp
    · exact ih _

theorem splitDots_ne_nil (cs : List Char) : splitDots cs ≠ [] :=
  splitDotsAux_ne_nil cs []

theorem splitDotsAux_no_dot : ∀ cs acc, '.' ∉ acc →
    ∀ p ∈ splitDotsAux cs acc, '.' ∉ p := by
  intro cs
  induction cs with
  | nil =>
    intro acc hacc p hp
    simp [splitDotsAux] at hp
    simpa [hp] using hacc
  | cons c cs ih =>
    intro acc hacc p hp
    rw [splitDotsAux] at hp
    split at hp
    · rcases List.mem_cons.mp hp with rfl | hp'
      · simpa using hacc
      · exact ih [] (by simp) p hp'
    · next h =>
      refine ih (c :: acc) ?_ p hp
      simp only [List.mem_cons, not_or]
      exact ⟨fun hcc => h hcc.symm, hacc⟩

theorem splitDots_no_dot {cs : List Char} : ∀ p ∈ splitDots cs, '.' ∉ p :=
  splitDotsAux_no_dot cs [] (by simp)

theorem splitDotsAux_append_no_dot : ∀ xs acc cs, '.' ∉ xs →
    splitDotsAux (xs ++ cs) acc = splitDotsAux cs (xs.reverse ++ acc) := by
  intro xs
  induction xs with
  | nil => intro acc cs _; simp
  | cons x xs ih =>
    intro acc cs hx
    simp only [List.mem_cons, not_or] at hx
    rw [List.cons_append, splitDotsAux, if_neg (fun h => hx.1 h.symm)]
    rw [ih _ _ hx.2]
    simp

theorem splitDots_no_dot_single {p : List Char} (hp : '.' ∉ p) :
    splitDots p = [p] := by
  have := splitDotsAux_append_no_dot p [] [] hp
  simpa [splitDots, splitDotsAux] using this

theorem joinDots_cons₂ (p q : List Char) (ps : List (List Char)) :
    joinDots (p :: q :: ps) = p ++ '.' :: joinDots (q :: ps) := by
  simp [joinDots, List.intercalate, List.intersperse]

theorem joinDots_single (p : List Char) : joinDots [p] = p := by
  simp [joinDots, List.intercalate]

theorem splitDots_joinDots : ∀ ps : List (List Char), ps ≠ [] →
    (∀ p ∈ ps, '.' ∉ p) → splitDots (joinDots ps) = ps := by
  intro ps
  induction ps with
  | nil => intro h; exact absurd rfl h
  | cons p ps ih =>
    intro _ hnd
    match ps with
    | [] =>
      rw [joinDots_single]
      exact splitDots_no_dot_single (hnd p (by simp))
    | q :: ps' =>
      rw [joinDots_cons₂]
      unfold splitDots
      rw [splitDotsAux_append_no_dot p [] _ (hnd p (by simp))]
      rw [splitDotsAux, if_pos rfl]
      simp only [List.append_nil, List.reverse_reverse]
      congr 1
      exact ih (by simp) (fun r hr => hnd r (by simp [hr]))

theorem joinDots_append_single (ps : List (List Char)) (x : List Char)
    (h : ps ≠ []) : joinDots (ps ++ [x]) = joinDots ps ++ ['.'] ++ x := by
  induction ps with
  | nil => exact absurd rfl h
  | cons p ps ih =>
    match ps with
    | [] => simp [joinDots_cons₂, joinDots_single]
    | q :: ps' =>
      rw [show ((p :: q :: ps') ++ [x]) = p :: (q :: (ps' ++ [x])) by simp]
      rw [joinDots_cons₂]
      rw [show (q :: (ps' ++ [x])) = ((q :: ps') ++ [x]) by simp]
      rw [ih (by simp), joinDots_cons₂]
      simp

/-! ### Lemmas: prerelease validity and `increment_semver` -/

theorem prereleaseNew_of_valid {s : String} (h : validPre s = true) :
    prereleaseNew s = some s := by
  unfold prereleaseNew
  rcases em (s = ("")) with h1 | h1
  · rw [if_pos h1]
  · rw [if_neg h1, if_pos h]

theorem prereleaseNew_some {s p : String} (h : prereleaseNew s = some p) : p = s := by
  unfold prereleaseNew at h
  split at h
  · exact (Option.some.inj h).symm
  · split at h
    · exact (Option.some.inj h).symm
    · exact absurd h (by simp)

theorem String.mk_ne_empty {l : List Char} (h : l ≠ []) : String.mk l ≠ ("") := by
  intro he
  exact h (congrArg String.data he)

/-- The constructed prerelease of the numeric branch equals the join of the
retained identifiers with the new numeric suffix. -/
theorem numeric_newPre_eq (pfx : List (List Char)) (d : List Char) :
    (if pfx.isEmpty then d else joinDots pfx ++ ['.'] ++ d) =
      joinDots (pfx ++ [d]) := by
  by_cases h : pfx.isEmpty
  · rw [if_pos h]
    rw [List.isEmpty_iff.mp h]
    simp [joinDots_single]
  · rw [if_neg h]
    rw [joinDots_append_single _ _ (by simpa [List.isEmpty_iff] using h)]

/-- The numeric branch of `increment_semver`, fully characterised:
a well-formed prerelease whose last identifier parses as `u64` `n` results
in the prerelease whose identifiers are the original ones with the last
replaced by the `u64` value `n + 1` (wrapped), everything else unchanged
and `build` cleared. -/
theorem increment_semver_numeric (v : Version) (last : List Char) (n : Nat)
    (hpre : v.pre ≠ (""))
    (hvalid : validPre v.pre = true)
    (hlast : (splitDots v.pre.data).getLast? = some last)
    (hn : parseU64 last = some n) :
    increment_semver v = some ⟨v.major, v.minor, v.patch,
      String.mk (joinDots ((splitDots v.pre.data).dropLast ++ [natDigits ((n + 1) % U64)])),
      ("")⟩ := by
  have hndot : ∀ p ∈ (splitDots v.pre.data).dropLast ++ [natDigits ((n + 1) % U64)],
      '.' ∉ p := by
    intro p hp
    rcases List.mem_append.mp hp with h1 | h1
    · exact splitDots_no_dot p (List.dropLast_sublist _ |>.subset h1)
    · simp only [List.mem_singleton] at h1
      exact h1 ▸ natDigits_no_dot
  have hvalid2 : validPre (String.mk
      (joinDots ((splitDots v.pre.data).dropLast ++ [natDigits ((n + 1) % U64)]))) = true := by
    unfold validPre
    show ((splitDots (joinDots _)).all validIdent) = true
    rw [splitDots_joinDots _ (by simp) hndot]
    rw [List.all_eq_true]
    intro p hp
    rcases List.mem_append.mp hp with h1 | h1
    · have hall := hvalid
      unfold validPre at hall
      rw [List.all_eq_true] at hall
      exact hall p (List.dropLast_sublist _ |>.subset h1)
    · simp only [List.mem_singleton] at h1
      subst h1
      rcases Nat.eq_zero_or_pos ((n + 1) % U64) with h0 | h0
      · rw [h0]; decide
      · obtain ⟨m, hm⟩ : ∃ m, (n + 1) % U64 = m + 1 := ⟨(n + 1) % U64 - 1, by omega⟩
        rw [hm]
        exact validIdent_natDigits m
  unfold increment_semver
  rw [if_neg hpre]
  simp only [hlast, hn]
  rw [numeric_newPre_eq]
  rw [prereleaseNew_of_valid hvalid2]

/-- The non-numeric branch of `increment_semver`: `patch` is bumped (as a
`u64`), the prerelease kept and `build` cleared. -/
theorem increment_semver_nonnumeric (v : Version) (last : List Char)
    (hpre : v.pre ≠ (""))
    (hlast : (splitDots v.pre.data).getLast? = some last)
    (hn : parseU64 last = none) :
    increment_semver v = some ⟨v.major, v.minor, (v.patch + 1) % U64, v.pre, ("")⟩ := by
  unfold increment_semver
  rw [if_neg hpre]
  simp only [hlast, hn]

theorem joinDots_end_digits_ne_nil (l : List (List Char)) (m : Nat) :
    joinDots (l ++ [natDigits m]) ≠ [] := by
  match l with
  | [] =>
    rw [List.nil_append, joinDots_single]
    exact natDigits_ne_nil m
  | p :: ps =>
    rw [joinDots_append_single _ _ (by simp)]
    simp

/-- Shape of the numeric branch of `increment_semver` without the validity
hypothesis: it either fails or produces the joined replaced-suffix
prerelease. -/
theorem increment_semver_numeric_shape (v : Version) (last : List Char) (n : Nat)
    (hpre : v.pre ≠ (""))
    (hlast : (splitDots v.pre.data).getLast? = some last)
    (hn : parseU64 last = some n) :
    increment_semver v = none ∨
    increment_semver v = some ⟨v.major, v.minor, v.patch,
      String.mk (joinDots ((splitDots v.pre.data).dropLast ++ [natDigits ((n + 1) % U64)])),
      ("")⟩ := by
  unfold increment_semver
  rw [if_neg hpre]
  simp only [hlast, hn]
  rw [numeric_newPre_eq]
  cases hprn : prereleaseNew (String.mk
      (joinDots ((splitDots v.pre.data).dropLast ++ [natDigits ((n + 1) % U64)]))) with
  | none => left; rfl
  | some p =>
    right
    rw [prereleaseNew_some hprn]

/-- Whatever `increment_semver` returns for a version with a prerelease
still has a nonempty prerelease. -/
theorem increment_semver_pre_ne_empty (v : Version) (hpre : v.pre ≠ ("")) :
    ∀ w, increment_semver v = some w → w.pre ≠ ("") := by
  intro w hw
  have hne := splitDots_ne_nil v.pre.data
  obtain ⟨last, hlast⟩ : ∃ a, (splitDots v.pre.data).getLast? = some a := by
    rw [List.getLast?_eq_getLast _ hne]
    exact ⟨_, rfl⟩
  cases hn : parseU64 last with
  | some n =>
    rcases increment_semver_numeric_shape v last n hpre hlast hn with h | h
    · rw [h] at hw; cases hw
    · rw [h] at hw
      cases hw
      exact String.mk_ne_empty (joinDots_end_digits_ne_nil _ _)
  | none =>
    rw [increment_semver_nonnumeric v last hpre hlast hn] at hw
    cases hw
    exact hpre

/-! ### Claims C3, C4 and C10 -/

/-- C3 (amended): for every well-formed version `v` with a nonempty
prerelease whose last dot-separated identifier parses as a `u64` value
`n`, provided `n + 1` does not overflow `u64`, `increment_semver` returns
`v` with that last identifier replaced by the decimal rendering of
`n + 1`, all earlier prerelease identifiers and `major`/`minor`/`patch`
unchanged, and `build` cleared. -/
theorem C3_increment_numeric_suffix (v : Version) (last : List Char) (n : Nat)
    (hpre : v.pre ≠ (""))
    (hvalid : validPre v.pre = true)
    (hlast : (splitDots v.pre.data).getLast? = some last)
    (hn : parseU64 last = some n)
    (hov : n + 1 < U64) :
    ∃ p : String,
      increment_semver v = some ⟨v.major, v.minor, v.patch, p, ("")⟩ ∧
      splitDots p.data = (splitDots v.pre.data).dropLast ++ [natDigits (n + 1)] := by
  have hmod : (n + 1) % U64 = n + 1 := Nat.mod_eq_of_lt hov
  have h1 := increment_semver_numeric v last n hpre hvalid hlast hn
  rw [hmod] at h1
  refine ⟨_, h1, ?_⟩
  show splitDots (joinDots ((splitDots v.pre.data).dropLast ++ [natDigits (n + 1)])) = _
  refine splitDots_joinDots _ (by simp) ?_
  intro p hp
  rcases List.mem_append.mp hp with h2 | h2
  · exact splitDots_no_dot p (List.dropLast_sublist _ |>.subset h2)
  · simp only [List.mem_singleton] at h2
    exact h2 ▸ natDigits_no_dot

/-- Witness for C3 at `1.0.0-alpha.0`: the result is `1.0.0-alpha.1`. -/
theorem C3_increment_numeric_suffix_witness :
    ∃ p : String,
      increment_semver ⟨1, 0, 0, ("alpha.0"), ("")⟩ = some ⟨1, 0, 0, p, ("")⟩ ∧
      splitDots p.data = (splitDots (("alpha.0").data)).dropLast ++ [natDigits (0 + 1)] :=
  C3_increment_numeric_suffix ⟨1, 0, 0, ("alpha.0"), ("")⟩ (("0").data) 0
    (by decide) (by decide) (by decide) (by decide) (by decide)

/-- Counterexample to C3 as stated: the well-formed version
`1.0.0-18446744073709551615` has a numeric last identifier
`n = u64::MAX`, yet the incremented prerelease is `"0"` (the `u64`
addition `n + 1` wraps; a debug build would abort instead), not the
decimal rendering of `n + 1`. -/
theorem C3_counterexample :
    validPre vBigPre.pre = true ∧
    (splitDots vBigPre.pre.data).getLast? = some u64MaxStr.data ∧
    parseU64 u64MaxStr.data = some (U64 - 1) ∧
    (increment_semver vBigPre).map Version.pre = some ("0") ∧
    natRepr ((U64 - 1) + 1) ≠ ("0") :=
  ⟨by decide, by decide, by decide, by decide, by decide⟩

/-- C4 (amended): for every well-formed version `v` with a nonempty
prerelease whose last dot-separated identifier does not parse as `u64`,
provided `patch + 1` does not overflow `u64`, `increment_semver` returns
`v` with `patch` incremented by exactly 1, prerelease unchanged and
`build` cleared. -/
theorem C4_increment_nonnumeric_prerelease (v : Version) (last : List Char)
    (hpre : v.pre ≠ (""))
    (hlast : (splitDots v.pre.data).getLast? = some last)
    (hn : parseU64 last = none)
    (hov : v.patch + 1 < U64) :
    increment_semver v = some ⟨v.major, v.minor, v.patch + 1, v.pre, ("")⟩ := by
  have h1 := increment_semver_nonnumeric v last hpre hlast hn
  rwa [Nat.mod_eq_of_lt hov] at h1

/-- Witness for C4 at `1.0.0-alpha`: the result is `1.0.1-alpha`. -/
theorem C4_increment_nonnumeric_prerelease_witness :
    increment_semver ⟨1, 0, 0, ("alpha"), ("")⟩ =
      some ⟨1, 0, 0 + 1, ("alpha"), ("")⟩ :=
  C4_increment_nonnumeric_prerelease ⟨1, 0, 0, ("alpha"), ("")⟩ (("alpha").data)
    (by decide) (by decide) (by decide) (by decide)

/-- Counterexample to C4 as stated: the well-formed version
`1.0.18446744073709551615-alpha` has a non-numeric prerelease, yet its
increment has `patch = 0`, not `patch + 1` (the `u64` addition wraps; a
debug build would abort instead). -/
theorem C4_counterexample :
    (splitDots vMaxPatch.pre.data).getLast? = some (("alpha").data) ∧
    parseU64 (("alpha").data) = none ∧
    increment_semver vMaxPatch = some ⟨1, 0, 0, ("alpha"), ("")⟩ ∧
    vMaxPatch.patch + 1 ≠ 0 :=
  ⟨by decide, by decide, by decide, by decide⟩

/-- C10: for every version `v` with a nonempty prerelease, the CLI-level
auto-increment (`get_next_version` in `main.rs`) promotes `v` to its plain
release version — prerelease and build cleared, numeric triple unchanged —
while the rewrite engine's `increment_semver`, whenever it succeeds on the
same `v`, returns a version with a nonempty prerelease; the two paths
therefore disagree on every prerelease input. -/
theorem C10_auto_increment_disagrees (v : Version) (hpre : v.pre ≠ ("")) :
    get_next_version_step v = ⟨v.major, v.minor, v.patch, (""), ("")⟩ ∧
    ∀ w, increment_semver v = some w → w ≠ get_next_version_step v := by
  have hstep : get_next_version_step v = ⟨v.major, v.minor, v.patch, (""), ("")⟩ := by
    unfold get_next_version_step
    rw [if_neg hpre]
  refine ⟨hstep, ?_⟩
  intro w hw heq
  apply increment_semver_pre_ne_empty v hpre w hw
  rw [heq, hstep]

/-- Witness for C10 at `1.2.3-alpha`. -/
theorem C10_auto_increment_disagrees_witness :
    get_next_version_step ⟨1, 2, 3, ("alpha"), ("")⟩ = ⟨1, 2, 3, (""), ("")⟩ ∧
    ∀ w, increment_semver ⟨1, 2, 3, ("alpha"), ("")⟩ = some w →
      w ≠ get_next_version_step ⟨1, 2, 3, ("alpha"), ("")⟩ :=
  C10_auto_increment_disagrees ⟨1, 2, 3, ("alpha"), ("")⟩ (by decide)

/-! ### Claim C5: first-match semantics of `get_current_version` -/

/-- C5: `get_current_version` returns the version parsed from the first
file, in discovery order, whose content contains a locatable version
token — later files are never consulted — and fails with
`NoVersionFoundError` carrying the searched root if no discovered file
contains a locatable token. -/
theorem C5_first_match_or_error (locate : String → Option String) (root : String) :
    (∀ (fs₁ fs₂ : List (FsPath × String)) (f : FsPath × String) (s : String) (w : Version),
      (∀ g ∈ fs₁, locate g.2 = none) →
      locate f.2 = some s →
      parseVersion s = some w →
      get_current_version locate root (fs₁ ++ f :: fs₂) = .ok w) ∧
    (∀ files : List (FsPath × String),
      (∀ g ∈ files, locate g.2 = none) →
      get_current_version locate root files = .error (.NoVersionFoundError root)) := by
  constructor
  · intro fs₁
    induction fs₁ with
    | nil =>
      intro fs₂ f s w _ hs hw
      obtain ⟨p, c⟩ := f
      have hs' : locate c = some s := hs
      simp only [List.nil_append, get_current_version, hs', hw]
    | cons g gs ih =>
      intro fs₂ f s w hnone hs hw
      obtain ⟨gp, gc⟩ := g
      have hg : locate gc = none := hnone (gp, gc) (by simp)
      simp only [List.cons_append, get_current_version, hg]
      exact ih fs₂ f s w (fun x hx => hnone x (by simp [hx])) hs hw
  · intro files
    induction files with
    | nil => intro _; rfl
    | cons g gs ih =>
      intro hnone
      obtain ⟨gp, gc⟩ := g
      have hg : locate gc = none := hnone (gp, gc) (by simp)
      simp only [get_current_version, hg]
      exact ih fun x hx => hnone x (by simp [hx])

/-- A concrete locator for the C5 witness. -/
def locateDemo : String → Option String :=
  fun s => if s = ("has") then some ("1.2.3") else none

/-- Witness for C5: the second file holds the token, the third is never
consulted; and a token-free list errors with the root. -/
theorem C5_first_match_or_error_witness :
    get_current_version locateDemo ("root")
      ([(([]), ("no"))] ++ (([("a")]), ("has")) :: [(([("b")]), ("later"))]) =
      .ok ⟨1, 2, 3, (""), ("")⟩ ∧
    get_current_version locateDemo ("root") [(([]), ("no"))] =
      .error (.NoVersionFoundError ("root")) :=
  ⟨(C5_first_match_or_error locateDemo ("root")).1
      [(([]), ("no"))] [(([("b")]), ("later"))] ((([("a")]), ("has"))) ("1.2.3")
      ⟨1, 2, 3, (""), ("")⟩ (by decide) (by decide) (by decide),
    (C5_first_match_or_error locateDemo ("root")).2 [(([]), ("no"))] (by decide)⟩

/-! ### Claim C6: deterministic discovery ordering -/

theorem lexLe_refl (p : FsPath) : lexLe p p = true := by
  induction p with
  | nil => rfl
  | cons a xs ih => simp [lexLe, ih]

theorem lexLe_total (p q : FsPath) : lexLe p q = true ∨ lexLe q p = true := by
  induction p generalizing q with
  | nil => left; rfl
  | cons a xs ih =>
    match q with
    | [] => right; rfl
    | b :: ys =>
      rcases lt_trichotomy a b with h | h | h
      · left; simp [lexLe, h]
      · subst h
        rcases ih ys with h1 | h1
        · left; simp [lexLe, h1]
        · right; simp [lexLe, h1]
      · right; simp [lexLe, h]

theorem lexLe_trans {p q r : FsPath} (h1 : lexLe p q = true) (h2 : lexLe q r = true) :
    lexLe p r = true := by
  induction p generalizing q r with
  | nil => rfl
  | cons a xs ih =>
    match q, r with
    | [], _ => simp [lexLe] at h1
    | _ :: _, [] => simp [lexLe] at h2
    | b :: ys, c :: zs =>
      simp only [lexLe] at h1 h2 ⊢
      rcases lt_trichotomy a b with hab | hab | hab
      · rcases lt_trichotomy b c with hbc | hbc | hbc
        · simp [lt_trans hab hbc]
        · subst hbc; simp [hab]
        · rw [if_neg (lt_asymm hbc), if_pos hbc] at h2; exact absurd h2 (by simp)
      · subst hab
        rcases lt_trichotomy a c with hac | hac | hac
        · simp [hac]
        · subst hac
          rw [if_neg (lt_irrefl a)] at h1 h2 ⊢
          rw [if_neg (lt_irrefl a)] at h1 h2 ⊢
          exact ih h1 h2
        · rw [if_neg (lt_asymm hac), if_pos hac] at h2; exact absurd h2 (by simp)
      · rw [if_neg (lt_asymm hab), if_pos hab] at h1; exact absurd h1 (by simp)

theorem lexLe_antisymm {p q : FsPath} (h1 : lexLe p q = true) (h2 : lexLe q p = true) :
    p = q := by
  induction p generalizing q with
  | nil =>
    match q with
    | [] => rfl
    | b :: ys => simp [lexLe] at h2
  | cons a xs ih =>
    match q with
    | [] => simp [lexLe] at h1
    | b :: ys =>
      simp only [lexLe] at h1 h2
      rcases lt_trichotomy a b with hab | hab | hab
      · rw [if_neg (lt_asymm hab), if_pos hab] at h2; exact absurd h2 (by simp)
      · subst hab
        rw [if_neg (lt_irrefl a)] at h1 h2
        rw [if_neg (lt_irrefl a)] at h1 h2
        rw [ih h1 h2]
      · rw [if_neg (lt_asymm hab), if_pos hab] at h1; exact absurd h1 (by simp)

instance : IsTotal FsPath PathLe where
  total p q := by
    unfold PathLe pathLe
    rcases lt_trichotomy p.length q.length with h | h | h
    · left; simp [h]
    · rcases lexLe_total p q with h1 | h1
      · left; simp [h, h1]
      · right; simp [h, h1]
    · right; simp [h]

instance : IsTrans FsPath PathLe where
  trans p q r h1 h2 := by
    unfold PathLe pathLe at h1 h2 ⊢
    simp only [Bool.or_eq_true, Bool.and_eq_true, decide_eq_true_eq] at h1 h2 ⊢
    rcases h1 with h1 | ⟨h1e, h1l⟩ <;> rcases h2 with h2 | ⟨h2e, h2l⟩
    · left; omega
    · left; omega
    · left; omega
    · right; exact ⟨by omega, lexLe_trans h1l h2l⟩

instance : IsAntisymm FsPath PathLe where
  antisymm p q h1 h2 := by
    unfold PathLe pathLe at h1 h2
    simp only [Bool.or_eq_true, Bool.and_eq_true, decide_eq_true_eq] at h1 h2
    rcases h1 with h1 | ⟨h1e, h1l⟩ <;> rcases h2 with h2 | ⟨h2e, h2l⟩
    · omega
    · omega
    · omega
    · exact lexLe_antisymm h1l h2l

/-- C6: for every filename predicate and any two enumerations of the same
entries, `get_matching_files` yields the matching entries sorted by path
depth ascending then lexicographically by full path, and the output is
identical for both enumerations — the order is deterministic and
independent of how the walker yields entries. -/
theorem C6_deterministic_discovery_order (pred : FsPath → Bool)
    (e₁ e₂ : List FsPath) (hperm : e₁.Perm e₂) :
    List.Sorted PathLe (get_matching_files pred e₁) ∧
    (get_matching_files pred e₁).Perm (e₁.filter pred) ∧
    get_matching_files pred e₁ = get_matching_files pred e₂ := by
  refine ⟨List.sorted_insertionSort PathLe _, List.perm_insertionSort PathLe _, ?_⟩
  unfold get_matching_files
  refine List.eq_of_perm_of_sorted ?_
    (List.sorted_insertionSort PathLe _) (List.sorted_insertionSort PathLe _)
  have h1 : List.Perm (List.insertionSort PathLe (e₁.filter pred)) (e₁.filter pred) :=
    List.perm_insertionSort PathLe _
  have h2 : List.Perm (e₁.filter pred) (e₂.filter pred) := hperm.filter pred
  have h3 : List.Perm (e₂.filter pred) (List.insertionSort PathLe (e₂.filter pred)) :=
    (List.perm_insertionSort PathLe _).symm
  exact (h1.trans h2).trans h3

/-- Witness for C6 on two enumerations of
`[["sub", "Cargo.toml"], ["Cargo.toml"], ["x"]]`. -/
theorem C6_deterministic_discovery_order_witness :
    List.Sorted PathLe
      (get_matching_files (fun p => p ≠ [("x")])
        [[("sub"), ("Cargo.toml")], [("Cargo.toml")], [("x")]]) ∧
    (get_matching_files (fun p => p ≠ [("x")])
        [[("sub"), ("Cargo.toml")], [("Cargo.toml")], [("x")]]).Perm
      (([[("sub"), ("Cargo.toml")], [("Cargo.toml")], [("x")]]).filter
        (fun p => p ≠ [("x")])) ∧
    get_matching_files (fun p => p ≠ [("x")])
        [[("sub"), ("Cargo.toml")], [("Cargo.toml")], [("x")]] =
      get_matching_files (fun p => p ≠ [("x")])
        [[("Cargo.toml")], [("sub"), ("Cargo.toml")], [("x")]] :=
  C6_deterministic_discovery_order (fun p => p ≠ [("x")])
    [[("sub"), ("Cargo.toml")], [("Cargo.toml")], [("x")]]
    [[("Cargo.toml")], [("sub"), ("Cargo.toml")], [("x")]]
    (List.Perm.swap [("Cargo.toml")] [("sub"), ("Cargo.toml")] [[("x")]])

/-! ### Claims C7 and C8: release state machine -/

theorem stage_files_headHistory (s : GitState) (files : List FsPath) :
    (stage_files s files).headHistory = s.headHistory := rfl

theorem stage_files_tags (s : GitState) (files : List FsPath) :
    (stage_files s files).tags = s.tags := rfl

theorem stage_files_pushedRefs (s : GitState) (files : List FsPath) :
    (stage_files s files).pushedRefs = s.pushedRefs := rfl

theorem stage_files_pendingChanges (s : GitState) (files : List FsPath) :
    (stage_files s files).pendingChanges = s.pendingChanges := rfl

theorem stage_files_hasIdentity (s : GitState) (files : List FsPath) :
    (stage_files s files).hasIdentity = s.hasIdentity := rfl

theorem stage_files_nextOid (s : GitState) (files : List FsPath) :
    (stage_files s files).nextOid = s.nextOid := rfl

/-- C7: for every mode other than `None`, when the post-staging
working-tree status reports no pending changes, `execute_git_mode`
succeeds without creating a commit or a tag and without pushing, leaving
HEAD at the prior commit; consequently running the release step a second
time, when the first run committed everything, performs exactly one
commit in total. -/
theorem C7_no_pending_changes_no_op (s : GitState) (mode : GitMode)
    (version : String) (files : List FsPath)
    (hmode : mode ≠ GitMode.none)
    (hpending : s.pendingChanges = false) :
    (∃ s', execute_git_mode s mode version files = .ok s' ∧
      s'.headHistory = s.headHistory ∧ s'.tags = s.tags ∧
      s'.pushedRefs = s.pushedRefs) ∧
    (∀ t : GitState, t.pendingChanges = true → t.hasIdentity = true →
      ∃ t₁ t₂, execute_git_mode t GitMode.commit version files = .ok t₁ ∧
        execute_git_mode t₁ GitMode.commit version files = .ok t₂ ∧
        t₁.headHistory.length = t.headHistory.length + 1 ∧
        t₂.headHistory = t₁.headHistory) := by
  constructor
  · refine ⟨stage_files s files, ?_, rfl, rfl, rfl⟩
    unfold execute_git_mode
    rw [if_neg hmode]
    rw [if_pos (by simp [stage_files_pendingChanges, hpending])]
  · intro t hp hid
    have hstage : (stage_files t files).pendingChanges = true := hp
    have hsid : (stage_files t files).hasIdentity = true := hid
    refine ⟨{ stage_files t files with
        headHistory := (stage_files t files).nextOid :: (stage_files t files).headHistory,
        nextOid := (stage_files t files).nextOid + 1,
        pendingChanges := false },
      stage_files { stage_files t files with
        headHistory := (stage_files t files).nextOid :: (stage_files t files).headHistory,
        nextOid := (stage_files t files).nextOid + 1,
        pendingChanges := false } files, ?_, ?_, ?_, ?_⟩
    · unfold execute_git_mode
      rw [if_neg (by decide)]
      rw [if_neg (by simp [hstage])]
      unfold create_commit
      rw [if_pos hsid]
      rfl
    · unfold execute_git_mode
      rw [if_neg (by decide)]
      rw [if_pos (by simp [stage_files_pendingChanges])]
    · rfl
    · rfl

/-- Witness for C7 at a concrete state. -/
def gitDemoState : GitState where
  headHistory := [7]
  nextOid := 8
  tags := []
  index := []
  pendingChanges := false
  hasIdentity := true
  branch := ("main")
  remotes := [("origin")]
  pushedRefs := []
  ignored := fun _ => false

theorem C7_no_pending_changes_no_op_witness :
    (∃ s', execute_git_mode gitDemoState GitMode.commit ("1.0.0") [] = .ok s' ∧
      s'.headHistory = gitDemoState.headHistory ∧ s'.tags = gitDemoState.tags ∧
      s'.pushedRefs = gitDemoState.pushedRefs) ∧
    (∀ t : GitState, t.pendingChanges = true → t.hasIdentity = true →
      ∃ t₁ t₂, execute_git_mode t GitMode.commit ("1.0.0") [] = .ok t₁ ∧
        execute_git_mode t₁ GitMode.commit ("1.0.0") [] = .ok t₂ ∧
        t₁.headHistory.length = t.headHistory.length + 1 ∧
        t₂.headHistory = t₁.headHistory) :=
  C7_no_pending_changes_no_op gitDemoState GitMode.commit ("1.0.0") []
    (by decide) (by rfl)

/-- C8: for every release mode that tags (`CommitPushTag` or
`CommitTag`), a successful run creates the annotated tag `v<version>`
pointing at the newly created commit with message `Release v<version>`
(for the pushing mode, provided the remote `origin` exists so that the
subsequent pushes succeed); and when a tag of that name already exists,
the run fails with the duplicate-tag error — after the commit has been
created and before any push — instead of overwriting the tag. -/
theorem C8_tagging (s : GitState) (mode : GitMode) (version : String)
    (files : List FsPath)
    (htag : shouldTag mode = true)
    (hpending : s.pendingChanges = true)
    (hid : s.hasIdentity = true) :
    (¬ (s.tags.any (fun t => t.1 = ("v") ++ version) = true) →
      (shouldPush mode = true → s.remotes.contains (("origin")) = true) →
      ∃ s', execute_git_mode s mode version files = .ok s' ∧
        s'.headHistory = s.nextOid :: s.headHistory ∧
        s'.tags = s.tags ++ [((("v") ++ version), s.nextOid, ("Release v") ++ version)]) ∧
    (s.tags.any (fun t => t.1 = ("v") ++ version) = true →
      execute_git_mode s mode version files =
        .error (GitError.duplicateTag (("v") ++ version))) := by
  have hstage : (stage_files s files).pendingChanges = true := hpending
  have hsid : (stage_files s files).hasIdentity = true := hid
  have hmsg : (("Release ") ++ (("v") ++ version)) = (("Release v") ++ version) := by
    rw [← String.append_assoc]
    rfl
  cases mode with
  | none => exact absurd htag (by decide)
  | commit => exact absurd htag (by decide)
  | commitPush => exact absurd htag (by decide)
  | commitTag =>
    constructor
    · intro hfresh _
      have hct : create_tag { stage_files s files with
          headHistory := (stage_files s files).nextOid :: (stage_files s files).headHistory,
          nextOid := (stage_files s files).nextOid + 1,
          pendingChanges := false } ((("v") ++ version)) ((stage_files s files).nextOid) =
          .ok { stage_files s files with
            headHistory := (stage_files s files).nextOid :: (stage_files s files).headHistory,
            nextOid := (stage_files s files).nextOid + 1,
            pendingChanges := false,
            tags := (stage_files s files).tags ++
              [((("v") ++ version), (stage_files s files).nextOid,
                ("Release ") ++ (("v") ++ version))] } := by
        unfold create_tag
        rw [if_neg (by simp [hsid]), if_neg (by simp), if_neg (by simpa using hfresh)]
      refine ⟨{ stage_files s files with
          headHistory := (stage_files s files).nextOid :: (stage_files s files).headHistory,
          nextOid := (stage_files s files).nextOid + 1,
          pendingChanges := false,
          tags := (stage_files s files).tags ++
            [((("v") ++ version), (stage_files s files).nextOid,
              ("Release ") ++ (("v") ++ version))] }, ?_, rfl, ?_⟩
      · unfold execute_git_mode
        rw [if_neg (by decide)]
        rw [if_neg (by simp [hstage])]
        unfold create_commit
        rw [if_pos hsid]
        simp only [hct]
        rfl
      · rw [hmsg]
        rfl
    · intro hdup
      have hctd : create_tag { stage_files s files with
          headHistory := (stage_files s files).nextOid :: (stage_files s files).headHistory,
          nextOid := (stage_files s files).nextOid + 1,
          pendingChanges := false } ((("v") ++ version)) ((stage_files s files).nextOid) =
          .error (GitError.duplicateTag (("v") ++ version)) := by
        unfold create_tag
        rw [if_neg (by simp [hsid]), if_neg (by simp), if_pos (by simpa using hdup)]
      unfold execute_git_mode
      rw [if_neg (by decide)]
      rw [if_neg (by simp [hstage])]
      unfold create_commit
      rw [if_pos hsid]
      simp only [hctd]
      rfl
  | commitPushTag =>
    constructor
    · intro hfresh hrem
      have hremote : s.remotes.contains (("origin")) = true := hrem rfl
      have hsrem : (stage_files s files).remotes.contains (("origin")) = true := hremote
      have hct : create_tag { stage_files s files with
          headHistory := (stage_files s files).nextOid :: (stage_files s files).headHistory,
          nextOid := (stage_files s files).nextOid + 1,
          pendingChanges := false } ((("v") ++ version)) ((stage_files s files).nextOid) =
          .ok { stage_files s files with
            headHistory := (stage_files s files).nextOid :: (stage_files s files).headHistory,
            nextOid := (stage_files s files).nextOid + 1,
            pendingChanges := false,
            tags := (stage_files s files).tags ++
              [((("v") ++ version), (stage_files s files).nextOid,
                ("Release ") ++ (("v") ++ version))] } := by
        unfold create_tag
        rw [if_neg (by simp [hsid]), if_neg (by simp), if_neg (by simpa using hfresh)]
      have hbr : current_branch { stage_files s files with
          headHistory := (stage_files s files).nextOid :: (stage_files s files).headHistory,
          nextOid := (stage_files s files).nextOid + 1,
          pendingChanges := false,
          tags := (stage_files s files).tags ++
            [((("v") ++ version), (stage_files s files).nextOid,
              ("Release ") ++ (("v") ++ version))] } = .ok s.branch := by
        unfold current_branch
        rw [if_neg (by simp)]
        rfl
      have hpushA : push_ref { stage_files s files with
          headHistory := (stage_files s files).nextOid :: (stage_files s files).headHistory,
          nextOid := (stage_files s files).nextOid + 1,
          pendingChanges := false,
          tags := (stage_files s files).tags ++
            [((("v") ++ version), (stage_files s files).nextOid,
              ("Release ") ++ (("v") ++ version))] } (("origin"))
          ((("refs/heads/") ++ s.branch ++ (":refs/heads/") ++ s.branch)) =
          .ok { stage_files s files with
            headHistory := (stage_files s files).nextOid :: (stage_files s files).headHistory,
            nextOid := (stage_files s files).nextOid + 1,
            pendingChanges := false,
            tags := (stage_files s files).tags ++
              [((("v") ++ version), (stage_files s files).nextOid,
                ("Release ") ++ (("v") ++ version))],
            pushedRefs := (stage_files s files).pushedRefs ++
              [(("refs/heads/") ++ s.branch ++ (":refs/heads/") ++ s.branch)] } := by
        unfold push_ref
        rw [if_pos (by simpa using hsrem)]
      have hpushB : push_ref { stage_files s files with
          headHistory := (stage_files s files).nextOid :: (stage_files s files).headHistory,
          nextOid := (stage_files s files).nextOid + 1,
          pendingChanges := false,
          tags := (stage_files s files).tags ++
            [((("v") ++ version), (stage_files s files).nextOid,
              ("Release ") ++ (("v") ++ version))],
          pushedRefs := (stage_files s files).pushedRefs ++
            [(("refs/heads/") ++ s.branch ++ (":refs/heads/") ++ s.branch)] } (("origin"))
          ((("refs/tags/") ++ (("v") ++ version) ++ (":refs/tags/") ++ (("v") ++ version))) =
          .ok { stage_files s files with
            headHistory := (stage_files s files).nextOid :: (stage_files s files).headHistory,
            nextOid := (stage_files s files).nextOid + 1,
            pendingChanges := false,
            tags := (stage_files s files).tags ++
              [((("v") ++ version), (stage_files s files).nextOid,
                ("Release ") ++ (("v") ++ version))],
            pushedRefs := ((stage_files s files).pushedRefs ++
              [(("refs/heads/") ++ s.branch ++ (":refs/heads/") ++ s.branch)]) ++
              [(("refs/tags/") ++ (("v") ++ version) ++ (":refs/tags/") ++ (("v") ++ version))] } := by
        unfold push_ref
        rw [if_pos (by simpa using hsrem)]
      refine ⟨{ stage_files s files with
          headHistory := (stage_files s files).nextOid :: (stage_files s files).headHistory,
          nextOid := (stage_files s files).nextOid + 1,
          pendingChanges := false,
          tags := (stage_files s files).tags ++
            [((("v") ++ version), (stage_files s files).nextOid,
              ("Release ") ++ (("v") ++ version))],
          pushedRefs := ((stage_files s files).pushedRefs ++
            [(("refs/heads/") ++ s.branch ++ (":refs/heads/") ++ s.branch)]) ++
            [(("refs/tags/") ++ (("v") ++ version) ++ (":refs/tags/") ++ (("v") ++ version))] },
        ?_, rfl, ?_⟩
      · have h1 : execute_git_mode s GitMode.commitPushTag version files =
            (match current_branch { stage_files s files with
          headHistory := (stage_files s files).nextOid :: (stage_files s files).headHistory,
          nextOid := (stage_files s files).nextOid + 1,
          pendingChanges := false,
          tags := (stage_files s files).tags ++
            [((("v") ++ version), (stage_files s files).nextOid,
              ("Release ") ++ (("v") ++ version))] } with
             | .error e => .error e
             | .ok br =>
               match push_ref { stage_files s files with
          headHistory := (stage_files s files).nextOid :: (stage_files s files).headHistory,
          nextOid := (stage_files s files).nextOid + 1,
          pendingChanges := false,
          tags := (stage_files s files).tags ++
            [((("v") ++ version), (stage_files s files).nextOid,
              ("Release ") ++ (("v") ++ version))] } (("origin"))
                   (("refs/heads/") ++ br ++ (":refs/heads/") ++ br) with
               | .error e => .error e
               | .ok s4 =>
                 push_ref s4 (("origin"))
                   (("refs/tags/") ++ (("v") ++ version) ++
                     (":refs/tags/") ++ (("v") ++ version))) := by
          unfold execute_git_mode
          rw [if_neg (by decide)]
          rw [if_neg (by simp [hstage])]
          unfold create_commit
          rw [if_pos hsid]
          simp only [hct]
          rfl
        rw [h1, hbr]
        simp only [hpushA, hpushB]
      · rw [hmsg]
        rfl
    · intro hdup
      have hctd : create_tag { stage_files s files with
          headHistory := (stage_files s files).nextOid :: (stage_files s files).headHistory,
          nextOid := (stage_files s files).nextOid + 1,
          pendingChanges := false } ((("v") ++ version)) ((stage_files s files).nextOid) =
          .error (GitError.duplicateTag (("v") ++ version)) := by
        unfold create_tag
        rw [if_neg (by simp [hsid]), if_neg (by simp), if_pos (by simpa using hdup)]
      unfold execute_git_mode
      rw [if_neg (by decide)]
      rw [if_neg (by simp [hstage])]
      unfold create_commit
      rw [if_pos hsid]
      simp only [hctd]
      rfl

/-- A state that already carries the tag `v1.0.0` on an older commit. -/
def gitDemoTagged : GitState where
  headHistory := [7]
  nextOid := 8
  tags := [((("v1.0.0")), 3, (("Release v1.0.0")))]
  index := []
  pendingChanges := true
  hasIdentity := true
  branch := ("main")
  remotes := [("origin")]
  pushedRefs := []
  ignored := fun _ => false

theorem C8_tagging_witness :
    (¬ (gitDemoTagged.tags.any (fun t => t.1 = ("v") ++ ("2.0.0")) = true) →
      (shouldPush GitMode.commitPushTag = true →
        gitDemoTagged.remotes.contains (("origin")) = true) →
      ∃ s', execute_git_mode gitDemoTagged GitMode.commitPushTag ("2.0.0") [] = .ok s' ∧
        s'.headHistory = gitDemoTagged.nextOid :: gitDemoTagged.headHistory ∧
        s'.tags = gitDemoTagged.tags ++
          [((("v") ++ ("2.0.0")), gitDemoTagged.nextOid, ("Release v") ++ ("2.0.0"))]) ∧
    (gitDemoTagged.tags.any (fun t => t.1 = ("v") ++ ("1.0.0")) = true →
      execute_git_mode gitDemoTagged GitMode.commitPushTag ("1.0.0") [] =
        .error (GitError.duplicateTag (("v") ++ ("1.0.0")))) ∧
    (¬ (gitDemoTagged.tags.any (fun t => t.1 = ("v") ++ ("2.0.0")) = true) →
      (shouldPush GitMode.commitTag = true →
        gitDemoTagged.remotes.contains (("origin")) = true) →
      ∃ s', execute_git_mode gitDemoTagged GitMode.commitTag ("2.0.0") [] = .ok s' ∧
        s'.headHistory = gitDemoTagged.nextOid :: gitDemoTagged.headHistory ∧
        s'.tags = gitDemoTagged.tags ++
          [((("v") ++ ("2.0.0")), gitDemoTagged.nextOid, ("Release v") ++ ("2.0.0"))]) ∧
    (gitDemoTagged.tags.any (fun t => t.1 = ("v") ++ ("1.0.0")) = true →
      execute_git_mode gitDemoTagged GitMode.commitTag ("1.0.0") [] =
        .error (GitError.duplicateTag (("v") ++ ("1.0.0")))) :=
  ⟨(C8_tagging gitDemoTagged GitMode.commitPushTag ("2.0.0") []
      (by decide) (by rfl) (by rfl)).1,
    (C8_tagging gitDemoTagged GitMode.commitPushTag ("1.0.0") []
      (by decide) (by rfl) (by rfl)).2,
    (C8_tagging gitDemoTagged GitMode.commitTag ("2.0.0") []
      (by decide) (by rfl) (by rfl)).1,
    (C8_tagging gitDemoTagged GitMode.commitTag ("1.0.0") []
      (by decide) (by rfl) (by rfl)).2⟩

/-! ### Claim C9: credential negotiation cap and strategy order -/

theorem tryKeyList_trace_sublist (env : CredEnv) :
    ∀ ks : List String,
      (tryKeyList env ks).1.Sublist (ks.map CredStrategy.keyFile) := by
  intro ks
  induction ks with
  | nil => simp [tryKeyList]
  | cons k ks ih =>
    rw [tryKeyList]
    by_cases hex : env.keyFileExists k
    · rw [if_pos hex]
      cases hc : env.keyCred k with
      | some c =>
        simp only [List.map_cons]
        exact (List.nil_sublist _).cons₂ _
      | none =>
        simp only [List.map_cons]
        exact ih.cons₂ _
    · rw [if_neg hex]
      exact ih.cons _

theorem credAfterHelper_trace (env : CredEnv) (tr : List CredStrategy) :
    ∃ suf, (credAfterHelper env tr).1 = tr ++ suf ∧
      suf.Sublist [CredStrategy.defaultCred] := by
  unfold credAfterHelper
  by_cases hd : env.defaultAllowed
  · rw [if_pos hd]
    cases env.defaultCredResult with
    | some c => exact ⟨[CredStrategy.defaultCred], rfl, by decide⟩
    | none => exact ⟨[CredStrategy.defaultCred], rfl, by decide⟩
  · rw [if_neg hd]
    exact ⟨[], by simp, by decide⟩

theorem credAfterSsh_trace (env : CredEnv) (tr : List CredStrategy) :
    ∃ suf, (credAfterSsh env tr).1 = tr ++ suf ∧
      suf.Sublist [CredStrategy.credHelper, CredStrategy.defaultCred] := by
  unfold credAfterSsh
  by_cases hu : env.userPassAllowed
  · rw [if_pos hu]
    by_cases hc : env.configOk
    · rw [if_neg (by simp [hc])]
      cases env.helperCred with
      | some c => exact ⟨[CredStrategy.credHelper], rfl, by decide⟩
      | none =>
        obtain ⟨suf, hs, hsub⟩ :=
          credAfterHelper_trace env (tr ++ [CredStrategy.credHelper])
        refine ⟨CredStrategy.credHelper :: suf, ?_, hsub.cons₂ _⟩
        rw [hs]
        simp
    · rw [if_pos (by simp [hc])]
      exact ⟨[CredStrategy.credHelper], rfl, by decide⟩
  · rw [if_neg hu]
    obtain ⟨suf, hs, hsub⟩ := credAfterHelper_trace env tr
    exact ⟨suf, hs, hsub.trans (by decide)⟩

theorem credAttemptBody_trace_sublist (env : CredEnv) :
    (credAttemptBody env).1.Sublist credStrategyOrder := by
  have horder : credStrategyOrder =
      (CredStrategy.sshAgent :: keyNames.map CredStrategy.keyFile) ++
        [CredStrategy.credHelper, CredStrategy.defaultCred] := rfl
  unfold credAttemptBody
  by_cases hssh : env.sshAllowed
  · rw [if_pos hssh]
    cases env.agentCred (env.usernameFromUrl.getD ("git")) with
    | some c =>
      exact (by decide :
        ([CredStrategy.sshAgent] : List CredStrategy).Sublist credStrategyOrder)
    | none =>
      by_cases hhome : env.homeAvailable
      · rw [if_pos hhome]
        cases hk : (tryKeyList env keyNames).2 with
        | some c =>
          rw [horder]
          refine List.Sublist.trans ?_ (List.sublist_append_left _ _)
          exact (tryKeyList_trace_sublist env keyNames).cons₂ _
        | none =>
          obtain ⟨suf, hs, hsub⟩ :=
            credAfterSsh_trace env (CredStrategy.sshAgent :: (tryKeyList env keyNames).1)
          rw [hs, horder]
          refine List.Sublist.append ?_ hsub
          exact (tryKeyList_trace_sublist env keyNames).cons₂ _
      · rw [if_neg hhome]
        obtain ⟨suf, hs, hsub⟩ := credAfterSsh_trace env [CredStrategy.sshAgent]
        rw [hs, horder]
        refine List.Sublist.append ?_ hsub
        exact (List.nil_sublist _).cons₂ _
  · rw [if_neg hssh]
    obtain ⟨suf, hs, hsub⟩ := credAfterSsh_trace env []
    rw [hs, horder]
    exact List.Sublist.append (List.nil_sublist _) hsub

/-- C9: the credentials callback increments its shared attempt counter on
every invocation; any invocation whose attempt number exceeds the cap of 5
fails with the authentication-exhausted error and attempts no strategy,
and every invocation within the cap attempts strategies in (a subsequence
of) the fixed priority order: SSH agent, then the conventional key files
`id_ed25519`, `id_rsa`, `id_ecdsa`, then the credential helper, then the
default credential. -/
theorem C9_credential_cap_and_order (env : CredEnv) (k : Nat) :
    (credCallback env k).1 = k + 1 ∧
    (k + 1 > 5 →
      (credCallback env k).2.2 =
        .error ("authentication failed after multiple attempts") ∧
      (credCallback env k).2.1 = []) ∧
    (credCallback env k).2.1.Sublist credStrategyOrder := by
  refine ⟨?_, ?_, ?_⟩
  · unfold credCallback
    by_cases h : k + 1 > 5
    · rw [if_pos h]
    · rw [if_neg h]
  · intro h
    unfold credCallback
    rw [if_pos h]
    exact ⟨rfl, rfl⟩
  · unfold credCallback
    by_cases h : k + 1 > 5
    · rw [if_pos h]
      exact List.nil_sublist _
    · rw [if_neg h]
      exact credAttemptBody_trace_sublist env

/-- A concrete credential environment for the C9 witness: SSH allowed, no
agent credential, one existing key file that fails, helper fails,
default succeeds. -/
def credEnvDemo : CredEnv where
  sshAllowed := true
  userPassAllowed := true
  defaultAllowed := true
  usernameFromUrl := some ("git")
  homeAvailable := true
  agentCred := fun _ => none
  keyFileExists := fun n => n = ("id_rsa")
  keyCred := fun _ => none
  configOk := true
  helperCred := none
  defaultCredResult := some ⟨42⟩

/-! ### Claims C1 and C2: replacement rewrites only the version token -/

theorem stripPrefixL_sound :
    ∀ pat cs rest, stripPrefixL pat cs = some rest → cs = pat ++ rest := by
  intro pat
  induction pat with
  | nil =>
    intro cs rest h
    simp only [stripPrefixL] at h
    cases h
    rfl
  | cons p ps ih =>
    intro cs rest h
    match cs with
    | [] => simp [stripPrefixL] at h
    | c :: cs' =>
      simp only [stripPrefixL] at h
      split at h
      · next hpc =>
        rw [List.cons_append, ← hpc, ih cs' rest h]
      · exact absurd h (by simp)

theorem digits1_sound {cs d r : List Char} (h : digits1 cs = some (d, r)) :
    cs = d ++ r := by
  unfold digits1 at h
  split at h
  · exact absurd h (by simp)
  · cases h
    exact (List.takeWhile_append_dropWhile _ _).symm

theorem tryVersionTailToml_sound {cs g2 rest : List Char}
    (h : tryVersionTailToml cs = some (g2, rest)) : cs = g2 ++ '\"' :: rest := by
  unfold tryVersionTailToml at h
  split at h
  · exact absurd h (by simp)
  · next d1 r1 hd1 =>
    split at h
    · next r2 =>
      split at h
      · exact absurd h (by simp)
      · next d2 r3 hd2 =>
        split at h
        · next r4 =>
          split at h
          · exact absurd h (by simp)
          · next d3 r5 hd3 =>
            split at h
            · next r6 hdrop =>
              cases h
              generalize hT : List.takeWhile (fun c => !(c = '\"')) r5 = t
              have h5 : r5 = t ++ '\"' :: rest := by
                have hr := List.takeWhile_append_dropWhile
                  (fun c => !(c = '\"')) r5
                rw [hT, hdrop] at hr
                exact hr.symm
              rw [digits1_sound hd1, digits1_sound hd2, digits1_sound hd3, h5]
              simp
            · exact absurd h (by simp)
        · exact absurd h (by simp)
    · exact absurd h (by simp)

theorem tryTomlAt_sound {cs g1 g2 rest : List Char}
    (h : tryTomlAt cs = some (g1, g2, rest)) : cs = g1 ++ g2 ++ '\"' :: rest := by
  unfold tryTomlAt at h
  split at h
  · exact absurd h (by simp)
  · next r1 hstrip =>
    split at h
    · next r2 hdrop1 =>
      split at h
      · next r3 hdrop2 =>
        split at h
        · exact absurd h (by simp)
        · next g2' rest' htail =>
          cases h
          generalize hW1 : List.takeWhile isWS r1 = w1
          generalize hW2 : List.takeWhile isWS r2 = w2
          have h1 : r1 = w1 ++ '=' :: r2 := by
            have hr := List.takeWhile_append_dropWhile isWS r1
            rw [hW1, hdrop1] at hr
            exact hr.symm
          have h2 : r2 = w2 ++ '\"' :: r3 := by
            have hr := List.takeWhile_append_dropWhile isWS r2
            rw [hW2, hdrop2] at hr
            exact hr.symm
          rw [stripPrefixL_sound _ _ _ hstrip, h1, h2, tryVersionTailToml_sound htail]
          simp
      · exact absurd h (by simp)
    · exact absurd h (by simp)

theorem tryPkgAt_sound {cs g1 g2 rest : List Char}
    (h : tryPkgAt cs = some (g1, g2, rest)) : cs = g1 ++ g2 ++ '\"' :: rest := by
  unfold tryPkgAt at h
  split at h
  · exact absurd h (by simp)
  · next r1 hstrip =>
    split at h
    · next r2 hdrop1 =>
      split at h
      · next r3 hdrop2 =>
        split at h
        · next rest' hdrop3 =>
          cases h
          generalize hW0 : List.takeWhile isWS cs = w0
          generalize hW1 : List.takeWhile isWS r1 = w1
          generalize hW2 : List.takeWhile isWS r2 = w2
          generalize hT : List.takeWhile (fun c => !(c = '\"')) r3 = t
          have hcs : cs = w0 ++ ((("\"version\"").data) ++ r1) := by
            have hr := List.takeWhile_append_dropWhile isWS cs
            rw [hW0, stripPrefixL_sound _ _ _ hstrip] at hr
            exact hr.symm
          have h1 : r1 = w1 ++ ':' :: r2 := by
            have hr := List.takeWhile_append_dropWhile isWS r1
            rw [hW1, hdrop1] at hr
            exact hr.symm
          have h2 : r2 = w2 ++ '\"' :: r3 := by
            have hr := List.takeWhile_append_dropWhile isWS r2
            rw [hW2, hdrop2] at hr
            exact hr.symm
          have h3 : r3 = t ++ '\"' :: rest := by
            have hr := List.takeWhile_append_dropWhile (fun c => !(c = '\"')) r3
            rw [hT, hdrop3] at hr
            exact hr.symm
          rw [hcs, h1, h2, h3]
          simp
        · exact absurd h (by simp)
      · exact absurd h (by simp)
    · exact absurd h (by simp)

theorem findFrom_sound
    (tryAt : List Char → Option (List Char × List Char × List Char))
    (hsound : ∀ cs g1 g2 r, tryAt cs = some (g1, g2, r) → cs = g1 ++ g2 ++ '\"' :: r) :
    ∀ cs acc atStart before g1 g2 rest,
      findFrom tryAt acc cs atStart = some (before, g1, g2, rest) →
      acc.reverse ++ cs = before ++ g1 ++ g2 ++ '\"' :: rest := by
  intro cs
  induction cs with
  | nil =>
    intro acc atStart before g1 g2 rest h
    rw [findFrom] at h
    cases htry : (if atStart then tryAt [] else none) with
    | some x =>
      rw [htry] at h
      obtain ⟨tg1, tg2, tr⟩ := x
      cases h
      have hstart : atStart = true := by
        by_contra hb
        rw [if_neg (by simpa using hb)] at htry
        cases htry
      rw [if_pos hstart] at htry
      have h0 := hsound [] g1 g2 rest htry
      simp only [List.append_assoc]
      rw [List.append_assoc] at h0
      rw [← h0]
    | none =>
      rw [htry] at h
      cases h
  | cons c cs' ih =>
    intro acc atStart before g1 g2 rest h
    rw [findFrom] at h
    cases htry : (if atStart then tryAt (c :: cs') else none) with
    | some x =>
      rw [htry] at h
      obtain ⟨tg1, tg2, tr⟩ := x
      cases h
      have hstart : atStart = true := by
        by_contra hb
        rw [if_neg (by simpa using hb)] at htry
        cases htry
      rw [if_pos hstart] at htry
      have h0 := hsound _ g1 g2 rest htry
      rw [h0]
      simp [List.append_assoc]
    | none =>
      rw [htry] at h
      have h2 := ih (c :: acc) (c = '\n') before g1 g2 rest h
      rw [List.reverse_cons, List.append_assoc] at h2
      simpa using h2

/-- Soundness of the leftmost-match decomposition: the match splits the
content into the text before the match, capture group 1, capture group 2,
the closing quote and the rest. -/
theorem findMatch_sound (s : Strategy) {content before g1 g2 rest : List Char}
    (h : findMatch (strategyTryAt s) content = some (before, g1, g2, rest)) :
    content = before ++ g1 ++ g2 ++ '\"' :: rest := by
  have hsound : ∀ cs a b c, strategyTryAt s cs = some (a, b, c) →
      cs = a ++ b ++ '\"' :: c := by
    cases s with
    | toml => exact fun cs a b c hh => tryTomlAt_sound hh
    | packageJson => exact fun cs a b c hh => tryPkgAt_sound hh
    | tauriConfig => exact fun cs a b c hh => tryPkgAt_sound hh
  have h2 := findFrom_sound (strategyTryAt s) hsound content [] true before g1 g2 rest h
  simpa using h2

/-- C1 (amended): whenever a strategy's version regex matches, the rewrite
replaces exactly the matched region — every byte before and after the
match is preserved and exactly one closing quote is emitted.  For the
manifest-toml and package.json strategies the matched prefix (capture
group 1, including any indentation) is re-emitted verbatim, so only the
version value token changes; the tauri.conf.json strategy instead emits
the fixed text `"version": "major.minor.patch"` in place of the whole
matched region, normalising the matched prefix's spacing. -/
theorem C1_replacement_rewrites_token_only (s : Strategy) (v : Version)
    (content before g1 g2 rest : List Char)
    (hfind : findMatch (strategyTryAt s) content = some (before, g1, g2, rest)) :
    content = before ++ g1 ++ g2 ++ '\"' :: rest ∧
    updateContent s v content = before ++ version_line_render s v g1 ++ rest ∧
    ((s = Strategy.toml ∨ s = Strategy.packageJson) →
      version_line_render s v g1 = g1 ++ (versionToString v).data ++ ['\"']) := by
  refine ⟨findMatch_sound s hfind, ?_, ?_⟩
  · unfold updateContent
    rw [hfind]
  · rintro (rfl | rfl) <;> rfl

/-- Witness for C1, the round-trip scenario: writing `2.0.0` into a
manifest-toml content `version = "1.0.0"` yields exactly
`version = "2.0.0"` with a single closing quote. -/
theorem C1_replacement_rewrites_token_only_witness :
    tomlDemoContent =
      ([]) ++ (("version = \"").data) ++ (("1.0.0").data) ++ '\"' :: ([]) ∧
    updateContent Strategy.toml vTwo tomlDemoContent =
      ([]) ++ version_line_render Strategy.toml vTwo (("version = \"").data) ++ ([]) ∧
    ((Strategy.toml = Strategy.toml ∨ Strategy.toml = Strategy.packageJson) →
      version_line_render Strategy.toml vTwo (("version = \"").data) =
        (("version = \"").data) ++ (versionToString vTwo).data ++ ['\"']) :=
  C1_replacement_rewrites_token_only Strategy.toml vTwo tomlDemoContent
    ([]) (("version = \"").data) (("1.0.0").data) ([]) (by decide)

/-- Counterexample to C1 as stated: the tauri.conf.json strategy does not
preserve every other byte.  On the indented content
`{\n  "version": "1.0.0"\n}` the two indentation spaces (bytes outside the
version value token) are deleted by the rewrite, because the strategy's
replacement is a fixed literal that does not re-emit capture group 1. -/
theorem C1_counterexample :
    updateContent Strategy.tauriConfig vTwo tauriDemoContent =
      (("\x7b\n\"version\": \"2.0.0\"\n\x7d").data) ∧
    updateContent Strategy.tauriConfig vTwo tauriDemoContent ≠
      (("\x7b\n  \"version\": \"2.0.0\"\n\x7d").data) :=
  ⟨by decide, by decide⟩

/-- C2: the tauri.conf.json replacement renderer depends only on
`major.minor.patch` — prerelease and build are discarded — and its output
is exactly `"version": "<major>.<minor>.<patch>"`; in the scenario where a
tauri.conf.json containing `"version": "1.0.0"` is updated with target
`2.0.0-beta.1`, the result contains `"version": "2.0.0"` and never the
string `beta`. -/
theorem C2_tauri_discards_prerelease :
    (∀ v : Version, tauriVersionLineFormat v =
      tauriVersionLineFormat ⟨v.major, v.minor, v.patch, (""), ("")⟩) ∧
    (∀ v : Version, (tauriVersionLineFormat v).data =
      (("\"version\": \"").data) ++ natDigits v.major ++ '.' :: natDigits v.minor
        ++ '.' :: natDigits v.patch ++ ['\"']) ∧
    updateContent Strategy.tauriConfig vTwoBeta tauriDemoContent =
      (("\x7b\n\"version\": \"2.0.0\"\n\x7d").data) ∧
    hasSubstr (("\"version\": \"2.0.0\"").data)
      (updateContent Strategy.tauriConfig vTwoBeta tauriDemoContent) = true ∧
    hasSubstr (("beta").data)
      (updateContent Strategy.tauriConfig vTwoBeta tauriDemoContent) = false := by
  refine ⟨fun v => rfl, fun v => ?_, by decide, by decide, by decide⟩
  show (tauriVersionLineFormat v).data = _
  unfold tauriVersionLineFormat natRepr
  simp [String.data_append, List.append_assoc]

theorem C9_credential_cap_and_order_witness :
    (credCallback credEnvDemo 5).1 = 5 + 1 ∧
    (5 + 1 > 5 →
      (credCallback credEnvDemo 5).2.2 =
        .error ("authentication failed after multiple attempts") ∧
      (credCallback credEnvDemo 5).2.1 = []) ∧
    (credCallback credEnvDemo 5).2.1.Sublist credStrategyOrder :=
  C9_credential_cap_and_order credEnvDemo 5

end UpdateVersion
